import Mathlib

/-!
Verification development for the cursor-slack-hooks repository.

The development shallowly embeds the two Python modules:

* `hooks/slack_listener.py` — the reply-polling daemon: the body of the
  polling loop in `run_listener` (message classification, injection and
  cursor advancement) and `inject_message` (AppleScript automation with
  absorbed failures).
* `hooks/slack_common.py` — the state store: `_load_state` (with legacy
  migration), `_save_state` (retention cap of 100 links),
  `save_thread_ts` and `get_most_recent_thread`.

Python strings are embedded as `String`; the Python comparison operators
on strings (lexicographic by code point) are embedded as executable
boolean functions `tsLt` and `tsLe` on the underlying character lists,
because message identifiers (Slack timestamps) are compared with string
comparison operators in the source.  Python dictionaries are embedded as
association lists in insertion order, which mirrors the
insertion-ordered iteration of Python dicts.
-/

namespace CursorSlackHooks

/-- Lexicographic strict order on character lists, by code point, exactly
the comparison Python applies to strings. -/
def lexLt : List Char → List Char → Bool
  | _, [] => false
  | [], _ :: _ => true
  | a :: as, b :: bs => if a < b then true else if b < a then false else lexLt as bs

/-- Strict order on strings as Python compares them. -/
def tsLt (a b : String) : Bool := lexLt a.data b.data

/-- Non-strict order on strings as Python compares them. -/
def tsLe (a b : String) : Bool := !(tsLt b a)

/-!
Embedding of the reply poller from `hooks/slack_listener.py`.

A Slack message as read by the listener: the source accesses exactly
the fields `ts` (with default empty string), `bot_id`, `user` and
`text` (with default empty string) through `dict.get`; absent optional
fields are `Option.none`.
-/

/-- One message returned by `conversations.replies`. -/
structure SlackMessage where
  ts : String
  bot_id : Option String
  user : Option String
  text : String
deriving DecidableEq

/-- Truthiness of an optional Python string: `None` and the empty string
are falsy, every other string is truthy.  Embeds `if bot_user_id:` and
`if msg.get("bot_id"):`. -/
def strTruthy : Option String → Bool
  | none => false
  | some s => !(s == "")

/-- Membership in the default whitespace class stripped by the Python
method `str.strip` (ASCII part). -/
def isPySpace (c : Char) : Bool :=
  c == ' ' || c == '\t' || c == '\n' || c == '\x0d' || c == '\x0b' || c == '\x0c'

/-- Embedding of the Python method `str.strip`: drop leading and
trailing whitespace. -/
def pyStrip (s : String) : String :=
  String.mk (((s.data.dropWhile isPySpace).reverse.dropWhile isPySpace).reverse)

/-- The listener state is a dict from thread root identifier to the last
seen message identifier, embedded as an insertion-ordered association
list. -/
def ListenerState := List (String × String)

instance : DecidableEq ListenerState :=
  inferInstanceAs (DecidableEq (List (String × String)))

/-- Embedding of `d.get(k, dflt)` on a Python dict. -/
def dget (st : List (String × String)) (k dflt : String) : String :=
  match st.lookup k with
  | some v => v
  | none => dflt

/-- Embedding of `d[k] = v` on a Python dict: replace the value of an
existing key in place, otherwise append the new key at the end. -/
def dset : List (String × String) → String → String → List (String × String)
  | [], k, v => [(k, v)]
  | (k0, v0) :: rest, k, v =>
    if k0 == k then (k0, v) :: rest else (k0, v0) :: dset rest k v

/-- The last seen cursor loaded at the top of a poll tick:
`listener_state.get(thread_ts, thread_ts)`. -/
def lastSeen (state : List (String × String)) (thread_ts : String) : String :=
  dget state thread_ts thread_ts

/-- State carried through one poll tick: the listener state dict and the
messages passed to the input injector so far, in call order. -/
structure TickState where
  listener_state : List (String × String)
  injected : List SlackMessage
deriving DecidableEq

/-- Embedding of one iteration of the message loop in `run_listener`
(`for msg in replies:` body): skip messages at or below the cursor,
skip the thread root, advance the cursor without injecting for bot
messages, self messages and empty messages, and otherwise inject and
advance the cursor.  The guard comparisons use `last_seen` as loaded at
the top of the tick, exactly as in the source. -/
def process_reply (thread_ts : String) (bot_user_id : Option String)
    (last_seen : String) (st : TickState) (msg : SlackMessage) : TickState :=
  if tsLe msg.ts last_seen then st
  else if msg.ts == thread_ts then st
  else if strTruthy msg.bot_id then
    ⟨dset st.listener_state thread_ts msg.ts, st.injected⟩
  else if strTruthy bot_user_id && (msg.user == bot_user_id) then
    ⟨dset st.listener_state thread_ts msg.ts, st.injected⟩
  else if pyStrip msg.text == "" then
    ⟨dset st.listener_state thread_ts msg.ts, st.injected⟩
  else
    ⟨dset st.listener_state thread_ts msg.ts, st.injected ++ [msg]⟩

/-- Embedding of the body of one poll tick of `run_listener` for a fetch
that returned `replies`: load the cursor, run the message loop, and
return the final listener state (persisted at the end of the tick) and
the injected messages. -/
def run_tick (thread_ts : String) (bot_user_id : Option String)
    (state : List (String × String)) (replies : List SlackMessage) : TickState :=
  replies.foldl (process_reply thread_ts bot_user_id (lastSeen state thread_ts))
    ⟨state, []⟩

/-- The prefix states of the message loop of one tick: element `i` is
the loop state after the first `i` messages have been processed. -/
def tick_states (thread_ts : String) (bot_user_id : Option String)
    (state : List (String × String)) (replies : List SlackMessage) : List TickState :=
  replies.scanl (process_reply thread_ts bot_user_id (lastSeen state thread_ts))
    ⟨state, []⟩

/-- Decision predicate characterizing the messages that reach the
injection call in the loop body: the branch conditions of
`process_reply` are all independent of the evolving loop state. -/
def shouldInject (thread_ts : String) (bot_user_id : Option String)
    (last_seen : String) (msg : SlackMessage) : Bool :=
  !(tsLe msg.ts last_seen) && !(msg.ts == thread_ts) && !(strTruthy msg.bot_id) &&
    !(strTruthy bot_user_id && (msg.user == bot_user_id)) &&
    !(pyStrip msg.text == "")

/-- Decision predicate characterizing the messages whose processing
writes the cursor: everything past the first two guards. -/
def updatesCursor (thread_ts : String) (last_seen : String)
    (msg : SlackMessage) : Bool :=
  !(tsLe msg.ts last_seen) && !(msg.ts == thread_ts)

/-- Order on optional cursor values: an absent cursor entry is below
every entry, present entries compare by `tsLe`. -/
def optTsLe : Option String → Option String → Bool
  | none, _ => true
  | some _, none => false
  | some a, some b => tsLe a b

/-- The stored cursor entry of a thread in the listener state. -/
def storedCursor (state : List (String × String)) (thread_ts : String) :
    Option String :=
  state.lookup thread_ts

/-- Upper bound invariant of the message loop: the current cursor entry
of the polled thread is at or below the identifier of every remaining
message that can still write the cursor. -/
def cursorUB (thread_ts last_seen : String) (st : TickState)
    (rest : List SlackMessage) : Prop :=
  ∀ m ∈ rest, updatesCursor thread_ts last_seen m = true →
    optTsLe (storedCursor st.listener_state thread_ts) (some m.ts) = true

/-- A sequence of poll ticks: each tick polls one thread (the one
reported most recent at that moment) and processes one fetched batch.
The listener state persisted by each tick is the input of the next. -/
def run_ticks (bot_user_id : Option String) (state : List (String × String)) :
    List (String × List SlackMessage) → List (String × String)
  | [] => state
  | (thread_ts, replies) :: rest =>
    run_ticks bot_user_id
      (run_tick thread_ts bot_user_id state replies).listener_state rest

/-!
Embedding of `inject_message`: the AppleScript automation is an
external effect whose outcome is one of four cases; the source absorbs
every non-success outcome with `except` handlers that only log, so the
function always returns normally.  The outcome of the `osascript`
subprocess call is a parameter of the embedding.
-/

/-- Outcome of the `osascript` subprocess call inside `inject_message`:
normal completion, `subprocess.TimeoutExpired`,
`subprocess.CalledProcessError` (carrying standard error output), or
any other exception. -/
inductive OsaOutcome where
  | ok
  | timedOut
  | processError (stderr : String)
  | otherError (emsg : String)
deriving DecidableEq

/-- The `subprocess.run` call of `inject_message` before exception
handling: an error value models a raised exception. -/
def osascript_run : OsaOutcome → Except String Unit
  | OsaOutcome.ok => Except.ok ()
  | OsaOutcome.timedOut => Except.error "AppleScript injection timed out"
  | OsaOutcome.processError e =>
    Except.error ("AppleScript injection failed: " ++ e)
  | OsaOutcome.otherError e =>
    Except.error ("AppleScript injection error: " ++ e)

/-- Embedding of `inject_message`: every outcome of the subprocess call
is absorbed into a log line and the function returns normally, which the
return type `List String` (the emitted log lines) makes structural. -/
def inject_message (message : String) (outcome : OsaOutcome) : List String :=
  match osascript_run outcome with
  | Except.ok _ =>
    ["Injected Slack reply via AppleScript (" ++ toString message.length ++
      " chars)"]
  | Except.error e => [e]

/-- Log line announcing a new human reply, with the 80 character
truncation of the source. -/
def newReplyLog (thread_ts text : String) : String :=
  "New human reply in thread " ++ thread_ts ++ ": " ++
    String.mk (text.data.take 80) ++
    (if text.data.length > 80 then "..." else "")

/-- Loop state of the tick embedding that also tracks log output. -/
structure TickLogState where
  listener_state : List (String × String)
  injected : List SlackMessage
  logs : List String
deriving DecidableEq

/-- Embedding of one iteration of the message loop including the log
and injection effects; `outcomes` gives the outcome of the AppleScript
automation for the message it is invoked on. -/
def process_reply_logged (thread_ts : String) (bot_user_id : Option String)
    (last_seen : String) (outcomes : String → OsaOutcome)
    (st : TickLogState) (msg : SlackMessage) : TickLogState :=
  if tsLe msg.ts last_seen then st
  else if msg.ts == thread_ts then st
  else if strTruthy msg.bot_id then
    ⟨dset st.listener_state thread_ts msg.ts, st.injected, st.logs⟩
  else if strTruthy bot_user_id && (msg.user == bot_user_id) then
    ⟨dset st.listener_state thread_ts msg.ts, st.injected, st.logs⟩
  else if pyStrip msg.text == "" then
    ⟨dset st.listener_state thread_ts msg.ts, st.injected, st.logs⟩
  else
    ⟨dset st.listener_state thread_ts msg.ts, st.injected ++ [msg],
      st.logs ++ [newReplyLog thread_ts (pyStrip msg.text)] ++
        inject_message (pyStrip msg.text) (outcomes msg.ts)⟩

/-- Embedding of the body of one poll tick including the log and
injection effects. -/
def run_tick_logged (thread_ts : String) (bot_user_id : Option String)
    (outcomes : String → OsaOutcome) (state : List (String × String))
    (replies : List SlackMessage) : TickLogState :=
  replies.foldl
    (process_reply_logged thread_ts bot_user_id (lastSeen state thread_ts)
      outcomes)
    ⟨state, [], []⟩

/-!
Embedding of the state store from `hooks/slack_common.py`: conversation
to thread links with legacy migration on load, a retention cap of 100
links on save, and the most recent thread scan.
-/

/-- One conversation link record as stored in `threads.json`: the
source reads the keys `thread_ts` and `file_id` with `dict.get`, so
both are optional. -/
structure ThreadEntry where
  thread_ts : Option String
  file_id : Option String
deriving DecidableEq

/-- One value of the persisted document before migration: the legacy
format stored the thread identifier directly as a string, the current
format stores a record. -/
inductive RawValue where
  | str (s : String)
  | obj (e : ThreadEntry)
deriving DecidableEq

/-- The migration step of `_load_state`: a legacy bare string becomes a
record with only `thread_ts` populated, a record is kept as is. -/
def migrateValue : RawValue → ThreadEntry
  | RawValue.str s => ⟨some s, none⟩
  | RawValue.obj e => e

/-- Embedding of `_load_state` on a parsed document: migrate every
entry, preserving the iteration order of the dict. -/
def load_state (doc : List (String × RawValue)) : List (String × ThreadEntry) :=
  doc.map (fun p => (p.1, migrateValue p.2))

/-- Sort key of a link used by the retention policy:
`state[k].get("thread_ts", "")`. -/
def entryKey (e : ThreadEntry) : String := e.thread_ts.getD ""

/-- Comparison used by the retention sort. -/
def entryLe (p q : String × ThreadEntry) : Prop :=
  tsLe (entryKey p.2) (entryKey q.2) = true

instance : DecidableRel entryLe :=
  fun p q =>
    inferInstanceAs (Decidable (tsLe (entryKey p.2) (entryKey q.2) = true))

/-- Embedding of `_save_state`: when more than 100 links are present,
sort the keys by thread identifier (a stable sort, as the Python
built-in `sorted`; `List.insertionSort` on a non-strict total order is
stable in the same sense), delete all but the last 100 keys from the
dict, and persist.  Deletion from a Python dict keeps the remaining
entries in their original order, hence the filter on the original
list. -/
def save_state (state : List (String × ThreadEntry)) :
    List (String × ThreadEntry) :=
  if state.length > 100 then
    let sortedKeys := (List.insertionSort entryLe state).map Prod.fst
    let evict := sortedKeys.take (state.length - 100)
    state.filter (fun p => !(evict.contains p.1))
  else state

/-- The in-memory update done by `save_thread_ts` before saving:
`state[conversation_id]["thread_ts"] = ts`, creating the entry if the
conversation is new (appended at the end of the dict). -/
def set_thread_ts (state : List (String × ThreadEntry)) (cid ts : String) :
    List (String × ThreadEntry) :=
  match state.lookup cid with
  | some _ =>
    state.map (fun p => if p.1 == cid then (p.1, ⟨some ts, p.2.file_id⟩) else p)
  | none => state ++ [(cid, ⟨some ts, none⟩)]

/-- Embedding of `save_thread_ts`: update the link of the conversation
and persist through `_save_state`. -/
def save_thread_ts (state : List (String × ThreadEntry)) (cid ts : String) :
    List (String × ThreadEntry) :=
  save_state (set_thread_ts state cid ts)

/-- Response of the `auth.test` call, as read by `get_bot_user_id`. -/
structure AuthTestResponse where
  ok : Bool
  user_id : Option String
deriving DecidableEq

/-- Embedding of `get_bot_user_id`: `none` in place of the response
models a raised exception; on a non-ok response or an exception the
function returns `None`. -/
def get_bot_user_id : Option AuthTestResponse → Option String
  | none => none
  | some r => if r.ok then r.user_id else none

/-- One step of the scan in `get_most_recent_thread`: keep the current
candidate unless this entry has a strictly greater thread identifier. -/
def mostRecentStep (acc : Option String × String) (p : String × ThreadEntry) :
    Option String × String :=
  let ts := p.2.thread_ts.getD "0"
  if tsLt acc.2 ts then (some p.1, ts) else acc

/-- Embedding of `get_most_recent_thread` on a loaded state: scan the
entries with the sentinel `"0"` and return the conversation and thread
of the last strict improvement, or `(None, None)`. -/
def get_most_recent_thread (state : List (String × ThreadEntry)) :
    Option String × Option String :=
  if state.isEmpty then (none, none)
  else
    match state.foldl mostRecentStep (none, "0") with
    | (some cid, ts) => (some cid, some ts)
    | (none, _) => (none, none)

/-- Scenario of the retention property: 150 conversation links stored
sequentially through `save_thread_ts`, with distinct conversation keys
and strictly increasing thread identifiers. -/
def retention_scenario : List (String × ThreadEntry) :=
  (List.range 150).foldl
    (fun st i => save_thread_ts st ("c" ++ toString i) (toString (100 + i))) []

/-- Expected survivors of the scenario: the 100 links with the largest
thread identifiers, in insertion order. -/
def retention_expected : List (String × ThreadEntry) :=
  (List.range 100).map
    (fun j => ("c" ++ toString (j + 50), ⟨some (toString (150 + j)), none⟩))

theorem lexLt_irrefl (a : List Char) : lexLt a a = false := by
  induction a with
  | nil => rfl
  | cons c cs ih => simp [lexLt, ih]

theorem lexLt_trans {a b c : List Char} (h1 : lexLt a b = true)
    (h2 : lexLt b c = true) : lexLt a c = true := by
  induction a generalizing b c with
  | nil =>
    cases b with
    | nil => simp [lexLt] at h1
    | cons y ys =>
      cases c with
      | nil => simp [lexLt] at h2
      | cons z zs => simp [lexLt]
  | cons x xs ih =>
    cases b with
    | nil => simp [lexLt] at h1
    | cons y ys =>
      cases c with
      | nil => simp [lexLt] at h2
      | cons z zs =>
        simp only [lexLt] at h1 h2 ⊢
        by_cases hxy : x < y
        · by_cases hyz : y < z
          · rw [if_pos (lt_trans hxy hyz)]
          · by_cases hzy : z < y
            · rw [if_neg hyz, if_pos hzy] at h2
              exact absurd h2 (by simp)
            · have hy : y = z := le_antisymm (le_of_not_lt hzy) (le_of_not_lt hyz)
              subst hy
              rw [if_pos hxy]
        · by_cases hyx : y < x
          · rw [if_neg hxy, if_pos hyx] at h1
            exact absurd h1 (by simp)
          · have hx : x = y := le_antisymm (le_of_not_lt hyx) (le_of_not_lt hxy)
            subst hx
            rw [if_neg (lt_irrefl x), if_neg (lt_irrefl x)] at h1
            by_cases hxz : x < z
            · rw [if_pos hxz]
            · by_cases hzx : z < x
              · rw [if_neg hxz, if_pos hzx] at h2
                exact absurd h2 (by simp)
              · rw [if_neg hxz, if_neg hzx] at h2 ⊢
                exact ih h1 h2

theorem lexLt_asymm {a b : List Char} (h : lexLt a b = true) :
    lexLt b a = false := by
  cases hx : lexLt b a with
  | false => rfl
  | true =>
    have hcon := lexLt_trans h hx
    rw [lexLt_irrefl] at hcon
    exact absurd hcon (by simp)

theorem lexLt_eq_of_not_lt {a b : List Char} (h1 : lexLt a b = false)
    (h2 : lexLt b a = false) : a = b := by
  induction a generalizing b with
  | nil =>
    cases b with
    | nil => rfl
    | cons y ys => simp [lexLt] at h1
  | cons x xs ih =>
    cases b with
    | nil => simp [lexLt] at h2
    | cons y ys =>
      simp only [lexLt] at h1 h2
      by_cases hxy : x < y
      · rw [if_pos hxy] at h1
        exact absurd h1 (by simp)
      · by_cases hyx : y < x
        · rw [if_pos hyx] at h2
          exact absurd h2 (by simp)
        · have hx : x = y := le_antisymm (le_of_not_lt hyx) (le_of_not_lt hxy)
          subst hx
          rw [if_neg (lt_irrefl x), if_neg (lt_irrefl x)] at h1
          rw [ih h1 (by rwa [if_neg (lt_irrefl x), if_neg (lt_irrefl x)] at h2)]

theorem ext_of_data {a b : String} (h : a.data = b.data) : a = b :=
  congrArg String.mk h

theorem tsLe_refl (a : String) : tsLe a a = true := by
  simp [tsLe, tsLt, lexLt_irrefl]

theorem tsLe_of_tsLt {a b : String} (h : tsLt a b = true) : tsLe a b = true := by
  simp [tsLe, tsLt, lexLt_asymm h]

theorem tsLt_trans {a b c : String} (h1 : tsLt a b = true)
    (h2 : tsLt b c = true) : tsLt a c = true := lexLt_trans h1 h2

theorem tsLe_total (a b : String) : tsLe a b = true ∨ tsLe b a = true := by
  cases hx : lexLt b.data a.data with
  | false => left; simp [tsLe, tsLt, hx]
  | true => right; simp [tsLe, tsLt, lexLt_asymm hx]

theorem tsLe_of_not_tsLe {a b : String} (h : tsLe a b = false) :
    tsLe b a = true := by
  rcases tsLe_total a b with h1 | h1
  · rw [h1] at h
    exact absurd h (by simp)
  · exact h1

theorem tsLt_of_not_tsLe {a b : String} (h : tsLe a b = false) :
    tsLt b a = true := by
  have hb : (!(tsLt b a)) = false := h
  simpa using hb

theorem tsLe_antisymm {a b : String} (h1 : tsLe a b = true)
    (h2 : tsLe b a = true) : a = b := by
  simp only [tsLe, Bool.not_eq_true'] at h1 h2
  exact ext_of_data (lexLt_eq_of_not_lt h2 h1)

theorem tsLe_trans {a b c : String} (h1 : tsLe a b = true)
    (h2 : tsLe b c = true) : tsLe a c = true := by
  simp only [tsLe, tsLt, Bool.not_eq_true'] at h1 h2 ⊢
  cases hca : lexLt c.data a.data with
  | false => rfl
  | true =>
    exfalso
    cases hbc : lexLt b.data c.data with
    | true =>
      have hba := lexLt_trans hbc hca
      rw [h1] at hba
      exact absurd hba (by simp)
    | false =>
      have hb : b.data = c.data := lexLt_eq_of_not_lt hbc h2
      have hca2 := hca
      rw [← hb, h1] at hca2
      exact absurd hca2 (by simp)

theorem tsLt_of_tsLt_of_tsLe {a b c : String} (h1 : tsLt a b = true)
    (h2 : tsLe b c = true) : tsLt a c = true := by
  cases hac : tsLt a c with
  | true => rfl
  | false =>
    exfalso
    have hca : tsLe c a = true := by simp [tsLe, hac]
    have hba : tsLe b a = true := tsLe_trans h2 hca
    have hab : a = b := tsLe_antisymm (tsLe_of_tsLt h1) hba
    subst hab
    rw [tsLt, lexLt_irrefl] at h1
    exact absurd h1 (by simp)

theorem tsLe_of_tsLt_of_tsLe {a b c : String} (h1 : tsLt a b = true)
    (h2 : tsLe b c = true) : tsLe a c = true :=
  tsLe_of_tsLt (tsLt_of_tsLt_of_tsLe h1 h2)

theorem tsLt_of_tsLe_of_tsLt {a b c : String} (h1 : tsLe a b = true)
    (h2 : tsLt b c = true) : tsLt a c = true := by
  cases hac : tsLt a c with
  | true => rfl
  | false =>
    exfalso
    have hca : tsLe c a = true := by simp [tsLe, hac]
    have hcb : tsLe c b = true := tsLe_trans hca h1
    have hbc : b = c := tsLe_antisymm (tsLe_of_tsLt h2) hcb
    subst hbc
    rw [tsLt, lexLt_irrefl] at h2
    exact absurd h2 (by simp)

theorem tsLe_def_not_tsLt (a b : String) : tsLe a b = (!(tsLt b a)) := rfl

theorem process_reply_injected (thread_ts : String) (bot_user_id : Option String)
    (last_seen : String) (st : TickState) (msg : SlackMessage) :
    (process_reply thread_ts bot_user_id last_seen st msg).injected =
      if shouldInject thread_ts bot_user_id last_seen msg
      then st.injected ++ [msg] else st.injected := by
  unfold process_reply shouldInject
  by_cases h1 : tsLe msg.ts last_seen <;>
    by_cases h2 : msg.ts == thread_ts <;>
      by_cases h3 : strTruthy msg.bot_id <;>
        by_cases h4 : strTruthy bot_user_id && (msg.user == bot_user_id) <;>
          by_cases h5 : pyStrip msg.text == "" <;>
            simp [h1, h2, h3, h4, h5]

theorem process_reply_state (thread_ts : String) (bot_user_id : Option String)
    (last_seen : String) (st : TickState) (msg : SlackMessage) :
    (process_reply thread_ts bot_user_id last_seen st msg).listener_state =
      if updatesCursor thread_ts last_seen msg
      then dset st.listener_state thread_ts msg.ts else st.listener_state := by
  unfold process_reply updatesCursor
  by_cases h1 : tsLe msg.ts last_seen <;>
    by_cases h2 : msg.ts == thread_ts <;>
      by_cases h3 : strTruthy msg.bot_id <;>
        by_cases h4 : strTruthy bot_user_id && (msg.user == bot_user_id) <;>
          by_cases h5 : pyStrip msg.text == "" <;>
            simp [h1, h2, h3, h4, h5]

theorem injected_eq_filter_aux (thread_ts : String) (bot_user_id : Option String)
    (last_seen : String) (replies : List SlackMessage) :
    ∀ st : TickState,
      (replies.foldl (process_reply thread_ts bot_user_id last_seen) st).injected =
        st.injected ++ replies.filter (shouldInject thread_ts bot_user_id last_seen) := by
  induction replies with
  | nil => intro st; simp
  | cons m rest ih =>
    intro st
    rw [List.foldl_cons, ih]
    rw [List.filter_cons]
    cases h : shouldInject thread_ts bot_user_id last_seen m with
    | true =>
      rw [process_reply_injected, if_pos h]
      simp
    | false =>
      rw [process_reply_injected, if_neg (by simp [h])]
      simp

/-- The messages injected during one tick are exactly the fetched
messages satisfying `shouldInject`, in fetch order. -/
theorem run_tick_injected (thread_ts : String) (bot_user_id : Option String)
    (state : List (String × String)) (replies : List SlackMessage) :
    (run_tick thread_ts bot_user_id state replies).injected =
      replies.filter (shouldInject thread_ts bot_user_id (lastSeen state thread_ts)) := by
  unfold run_tick
  rw [injected_eq_filter_aux]
  simp

theorem dset_lookup_self (st : List (String × String)) (k v : String) :
    (dset st k v).lookup k = some v := by
  induction st with
  | nil => simp [dset, List.lookup]
  | cons p rest ih =>
    rcases p with ⟨k0, v0⟩
    by_cases h : k0 == k
    · have hk : k0 = k := by simpa using h
      subst hk
      simp [dset, List.lookup]
    · rw [dset, if_neg (by simpa using h)]
      rw [List.lookup]
      have hk : (k == k0) = false := by
        cases hx : k == k0 with
        | false => rfl
        | true =>
          exfalso
          have : k = k0 := by simpa using hx
          subst this
          simp at h
      rw [hk]
      exact ih

theorem dset_lookup_other (st : List (String × String)) (k v k2 : String)
    (h : k2 ≠ k) : (dset st k v).lookup k2 = st.lookup k2 := by
  induction st with
  | nil =>
    have hf : (k2 == k) = false := by simpa using h
    simp [dset, List.lookup, hf]
  | cons p rest ih =>
    rcases p with ⟨k0, v0⟩
    by_cases hk : k0 == k
    · have hk0 : k0 = k := by simpa using hk
      subst hk0
      rw [dset, if_pos (by simp)]
      rw [List.lookup, List.lookup]
      have hf : (k2 == k0) = false := by simpa using h
      rw [hf]
    · rw [dset, if_neg (by simpa using hk)]
      rw [List.lookup, List.lookup]
      cases hx : k2 == k0 with
      | true => rfl
      | false => exact ih

theorem optTsLe_refl (a : Option String) : optTsLe a a = true := by
  cases a with
  | none => rfl
  | some v => simp [optTsLe, tsLe_refl]

theorem optTsLe_trans {a b c : Option String} (h1 : optTsLe a b = true)
    (h2 : optTsLe b c = true) : optTsLe a c = true := by
  cases a with
  | none => rfl
  | some x =>
    cases b with
    | none => simp [optTsLe] at h1
    | some y =>
      cases c with
      | none => simp [optTsLe] at h2
      | some z => exact tsLe_trans h1 h2

theorem storedCursor_dset_self (st : List (String × String)) (k v : String) :
    storedCursor (dset st k v) k = some v := dset_lookup_self st k v

theorem cursorUB_initial (thread_ts : String)
    (state : List (String × String)) (replies : List SlackMessage)
    (injAcc : List SlackMessage) :
    cursorUB thread_ts (lastSeen state thread_ts) ⟨state, injAcc⟩ replies := by
  intro m _ hupd
  have hnotle : tsLe m.ts (lastSeen state thread_ts) = false := by
    unfold updatesCursor at hupd
    cases hx : tsLe m.ts (lastSeen state thread_ts) with
    | false => rfl
    | true => rw [hx] at hupd; simp at hupd
  cases hl : state.lookup thread_ts with
  | none => simp [storedCursor, hl, optTsLe]
  | some v =>
    have hls : lastSeen state thread_ts = v := by
      unfold lastSeen dget
      rw [hl]
    rw [hls] at hnotle
    simp only [storedCursor, hl, optTsLe]
    exact tsLe_of_not_tsLe hnotle

theorem cursorUB_step (thread_ts : String) (bot_user_id : Option String)
    (last_seen : String) (st : TickState) (m : SlackMessage)
    (rest : List SlackMessage)
    (hub : cursorUB thread_ts last_seen st (m :: rest))
    (hle : ∀ m2 ∈ rest, tsLe m.ts m2.ts = true) :
    cursorUB thread_ts last_seen
      (process_reply thread_ts bot_user_id last_seen st m) rest := by
  intro m2 hm2 hupd2
  rw [process_reply_state]
  by_cases hupd : updatesCursor thread_ts last_seen m = true
  · rw [if_pos hupd]
    rw [storedCursor_dset_self]
    simp only [optTsLe]
    exact hle m2 hm2
  · rw [if_neg hupd]
    exact hub m2 (List.mem_cons_of_mem m hm2) hupd2

theorem cursorUB_step_mono (thread_ts : String) (bot_user_id : Option String)
    (last_seen : String) (st : TickState) (m : SlackMessage)
    (rest : List SlackMessage)
    (hub : cursorUB thread_ts last_seen st (m :: rest)) :
    optTsLe (storedCursor st.listener_state thread_ts)
      (storedCursor
        (process_reply thread_ts bot_user_id last_seen st m).listener_state
        thread_ts) = true := by
  rw [process_reply_state]
  by_cases hupd : updatesCursor thread_ts last_seen m = true
  · rw [if_pos hupd]
    rw [storedCursor_dset_self]
    exact hub m (List.mem_cons_self m rest) hupd
  · rw [if_neg hupd]
    exact optTsLe_refl _

theorem scanl_cursor_chain (thread_ts : String) (bot_user_id : Option String)
    (last_seen : String) (replies : List SlackMessage) :
    ∀ st : TickState,
      List.Pairwise (fun m1 m2 => tsLe m1.ts m2.ts = true) replies →
      cursorUB thread_ts last_seen st replies →
      List.Chain' (fun c1 c2 => optTsLe c1 c2 = true)
        ((replies.scanl (process_reply thread_ts bot_user_id last_seen) st).map
          (fun s => storedCursor s.listener_state thread_ts)) := by
  induction replies with
  | nil => intro st _ _; simp [List.scanl]
  | cons m rest ih =>
    intro st hsort hub
    rw [List.scanl_cons]
    simp only [List.singleton_append, List.map_cons]
    have hpair := (List.pairwise_cons.mp hsort).1
    have htail := (List.pairwise_cons.mp hsort).2
    have hchain := ih (process_reply thread_ts bot_user_id last_seen st m) htail
      (cursorUB_step thread_ts bot_user_id last_seen st m rest hub hpair)
    cases hscan : (rest.scanl (process_reply thread_ts bot_user_id last_seen)
        (process_reply thread_ts bot_user_id last_seen st m)) with
    | nil =>
      exfalso
      cases rest <;> simp [List.scanl] at hscan
    | cons s2 srest =>
      rw [List.map_cons]
      apply List.chain'_cons.mpr
      constructor
      · have hhd : s2 = process_reply thread_ts bot_user_id last_seen st m := by
          have : (rest.scanl (process_reply thread_ts bot_user_id last_seen)
              (process_reply thread_ts bot_user_id last_seen st m)).head? =
              some (process_reply thread_ts bot_user_id last_seen st m) := by
            cases rest <;> simp [List.scanl]
          rw [hscan] at this
          simpa using this
        rw [hhd]
        exact cursorUB_step_mono thread_ts bot_user_id last_seen st m rest hub
      · rw [hscan, List.map_cons] at hchain
        exact hchain

theorem foldl_cursor_mono (thread_ts : String) (bot_user_id : Option String)
    (last_seen : String) (replies : List SlackMessage) :
    ∀ st : TickState,
      List.Pairwise (fun m1 m2 => tsLe m1.ts m2.ts = true) replies →
      cursorUB thread_ts last_seen st replies →
      optTsLe (storedCursor st.listener_state thread_ts)
        (storedCursor
          (replies.foldl (process_reply thread_ts bot_user_id last_seen)
            st).listener_state thread_ts) = true := by
  induction replies with
  | nil => intro st _ _; exact optTsLe_refl _
  | cons m rest ih =>
    intro st hsort hub
    rw [List.foldl_cons]
    have hpair := (List.pairwise_cons.mp hsort).1
    have htail := (List.pairwise_cons.mp hsort).2
    exact optTsLe_trans
      (cursorUB_step_mono thread_ts bot_user_id last_seen st m rest hub)
      (ih (process_reply thread_ts bot_user_id last_seen st m) htail
        (cursorUB_step thread_ts bot_user_id last_seen st m rest hub hpair))

/-- The cursor entry of the polled thread is monotone over one tick. -/
theorem run_tick_cursor_mono (thread_ts : String) (bot_user_id : Option String)
    (state : List (String × String)) (replies : List SlackMessage)
    (hsort : List.Pairwise (fun m1 m2 => tsLe m1.ts m2.ts = true) replies) :
    optTsLe (storedCursor state thread_ts)
      (storedCursor (run_tick thread_ts bot_user_id state replies).listener_state
        thread_ts) = true :=
  foldl_cursor_mono thread_ts bot_user_id (lastSeen state thread_ts) replies
    ⟨state, []⟩ hsort
    (cursorUB_initial thread_ts state replies [])

theorem foldl_other_key (thread_ts : String) (bot_user_id : Option String)
    (last_seen : String) (replies : List SlackMessage) (t2 : String)
    (hne : t2 ≠ thread_ts) :
    ∀ st : TickState,
      (replies.foldl (process_reply thread_ts bot_user_id last_seen)
        st).listener_state.lookup t2 = st.listener_state.lookup t2 := by
  induction replies with
  | nil => intro st; rfl
  | cons m rest ih =>
    intro st
    rw [List.foldl_cons, ih]
    rw [process_reply_state]
    by_cases hupd : updatesCursor thread_ts last_seen m = true
    · rw [if_pos hupd]
      exact dset_lookup_other st.listener_state thread_ts m.ts t2 hne
    · rw [if_neg hupd]

/-- Entries of threads other than the polled one are untouched by a tick. -/
theorem run_tick_other_key (thread_ts : String) (bot_user_id : Option String)
    (state : List (String × String)) (replies : List SlackMessage) (t2 : String)
    (hne : t2 ≠ thread_ts) :
    (run_tick thread_ts bot_user_id state replies).listener_state.lookup t2 =
      state.lookup t2 :=
  foldl_other_key thread_ts bot_user_id (lastSeen state thread_ts) replies t2 hne
    ⟨state, []⟩

theorem foldl_cursor_reach_aux (thread_ts : String) (bot_user_id : Option String)
    (last_seen : String) (x : String) (replies : List SlackMessage) :
    ∀ st : TickState,
      (∃ c, storedCursor st.listener_state thread_ts = some c ∧ tsLe x c = true) →
      (∀ m ∈ replies, tsLe x m.ts = true) →
      ∃ c, storedCursor
          (replies.foldl (process_reply thread_ts bot_user_id last_seen)
            st).listener_state thread_ts = some c ∧ tsLe x c = true := by
  induction replies with
  | nil => intro st h _; exact h
  | cons m rest ih =>
    intro st h hall
    rw [List.foldl_cons]
    apply ih
    · rw [process_reply_state]
      by_cases hupd : updatesCursor thread_ts last_seen m = true
      · rw [if_pos hupd]
        exact ⟨m.ts, storedCursor_dset_self st.listener_state thread_ts m.ts,
          hall m (List.mem_cons_self m rest)⟩
      · rw [if_neg hupd]
        exact h
    · intro m2 hm2
      exact hall m2 (List.mem_cons_of_mem m hm2)

theorem foldl_cursor_reach (thread_ts : String) (bot_user_id : Option String)
    (last_seen : String) (msg : SlackMessage)
    (hupd : updatesCursor thread_ts last_seen msg = true) :
    ∀ replies : List SlackMessage,
      List.Pairwise (fun m1 m2 => tsLe m1.ts m2.ts = true) replies →
      msg ∈ replies →
      ∀ st : TickState,
        ∃ c, storedCursor
            (replies.foldl (process_reply thread_ts bot_user_id last_seen)
              st).listener_state thread_ts = some c ∧ tsLe msg.ts c = true := by
  intro replies
  induction replies with
  | nil =>
    intro _ hmem
    exact absurd hmem (List.not_mem_nil msg)
  | cons m rest ih =>
    intro hsort hmem st
    rw [List.foldl_cons]
    have hpair := (List.pairwise_cons.mp hsort).1
    have htail := (List.pairwise_cons.mp hsort).2
    rcases List.mem_cons.mp hmem with heq | hmem2
    · subst heq
      apply foldl_cursor_reach_aux
      · rw [process_reply_state, if_pos hupd]
        exact ⟨msg.ts, storedCursor_dset_self st.listener_state thread_ts msg.ts,
          tsLe_refl msg.ts⟩
      · exact hpair
    · exact ih htail hmem2 _

/-- If some fetched message writes the cursor, the cursor entry at the
close of the tick is a present value at or above that message. -/
theorem run_tick_cursor_reach (thread_ts : String) (bot_user_id : Option String)
    (state : List (String × String)) (replies : List SlackMessage)
    (msg : SlackMessage)
    (hsort : List.Pairwise (fun m1 m2 => tsLe m1.ts m2.ts = true) replies)
    (hmem : msg ∈ replies)
    (hupd : updatesCursor thread_ts (lastSeen state thread_ts) msg = true) :
    ∃ c, storedCursor
        (run_tick thread_ts bot_user_id state replies).listener_state thread_ts =
        some c ∧ tsLe msg.ts c = true :=
  foldl_cursor_reach thread_ts bot_user_id (lastSeen state thread_ts) msg hupd
    replies hsort hmem ⟨state, []⟩

theorem run_ticks_cursor_mono (bot_user_id : Option String) (t : String) :
    ∀ (ticks : List (String × List SlackMessage))
      (state : List (String × String)),
      (∀ tk ∈ ticks,
        List.Pairwise (fun m1 m2 => tsLe m1.ts m2.ts = true) tk.2) →
      optTsLe (storedCursor state t)
        (storedCursor (run_ticks bot_user_id state ticks) t) = true := by
  intro ticks
  induction ticks with
  | nil => intro state _; exact optTsLe_refl _
  | cons tk rest ih =>
    intro state hsort
    rcases tk with ⟨thread_ts, replies⟩
    rw [run_ticks]
    have hstep : optTsLe (storedCursor state t)
        (storedCursor (run_tick thread_ts bot_user_id state replies).listener_state
          t) = true := by
      by_cases heq : t = thread_ts
      · subst heq
        exact run_tick_cursor_mono t bot_user_id state replies
          (hsort _ (List.mem_cons_self _ _))
      · simp only [storedCursor]
        rw [run_tick_other_key thread_ts bot_user_id state replies t heq]
        exact optTsLe_refl _
    exact optTsLe_trans hstep
      (ih _ (fun tk2 h2 => hsort tk2 (List.mem_cons_of_mem _ h2)))

theorem process_reply_logged_agrees (thread_ts : String)
    (bot_user_id : Option String) (last_seen : String)
    (outcomes : String → OsaOutcome) (st : TickLogState) (msg : SlackMessage) :
    (process_reply_logged thread_ts bot_user_id last_seen outcomes st msg).listener_state =
      (process_reply thread_ts bot_user_id last_seen
        ⟨st.listener_state, st.injected⟩ msg).listener_state ∧
    (process_reply_logged thread_ts bot_user_id last_seen outcomes st msg).injected =
      (process_reply thread_ts bot_user_id last_seen
        ⟨st.listener_state, st.injected⟩ msg).injected := by
  unfold process_reply_logged process_reply
  by_cases h1 : tsLe msg.ts last_seen <;>
    by_cases h2 : msg.ts == thread_ts <;>
      by_cases h3 : strTruthy msg.bot_id <;>
        by_cases h4 : strTruthy bot_user_id && (msg.user == bot_user_id) <;>
          by_cases h5 : pyStrip msg.text == "" <;>
            simp [h1, h2, h3, h4, h5]

theorem foldl_logged_agrees (thread_ts : String) (bot_user_id : Option String)
    (last_seen : String) (outcomes : String → OsaOutcome)
    (replies : List SlackMessage) :
    ∀ st : TickLogState,
      (replies.foldl
        (process_reply_logged thread_ts bot_user_id last_seen outcomes)
        st).listener_state =
        (replies.foldl (process_reply thread_ts bot_user_id last_seen)
          ⟨st.listener_state, st.injected⟩).listener_state ∧
      (replies.foldl
        (process_reply_logged thread_ts bot_user_id last_seen outcomes)
        st).injected =
        (replies.foldl (process_reply thread_ts bot_user_id last_seen)
          ⟨st.listener_state, st.injected⟩).injected := by
  induction replies with
  | nil => intro st; exact ⟨rfl, rfl⟩
  | cons m rest ih =>
    intro st
    rw [List.foldl_cons, List.foldl_cons]
    rcases process_reply_logged_agrees thread_ts bot_user_id last_seen outcomes
      st m with ⟨hs, hi⟩
    rcases ih (process_reply_logged thread_ts bot_user_id last_seen outcomes st m)
      with ⟨hs2, hi2⟩
    rw [hs2, hi2, hs, hi]
    constructor <;> rfl

/-- Under every possible automation outcome, including timeouts and
failures, the tick computes the same listener state and the same
injected message sequence: failures of the injector are absorbed and
never alter control flow or cursor tracking. -/
theorem run_tick_logged_agrees (thread_ts : String)
    (bot_user_id : Option String) (outcomes : String → OsaOutcome)
    (state : List (String × String)) (replies : List SlackMessage) :
    (run_tick_logged thread_ts bot_user_id outcomes state replies).listener_state =
      (run_tick thread_ts bot_user_id state replies).listener_state ∧
    (run_tick_logged thread_ts bot_user_id outcomes state replies).injected =
      (run_tick thread_ts bot_user_id state replies).injected :=
  foldl_logged_agrees thread_ts bot_user_id (lastSeen state thread_ts) outcomes
    replies ⟨state, [], []⟩

/-- When a save sees more than 100 links in a dict (whose keys are
unique), the eviction pass leaves exactly 100 links. -/
theorem save_state_length (state : List (String × ThreadEntry))
    (hnodup : (state.map Prod.fst).Nodup) (hlen : state.length > 100) :
    (save_state state).length = 100 := by
  unfold save_state
  rw [if_pos hlen]
  have hperm : (List.insertionSort entryLe state).Perm state :=
    List.perm_insertionSort entryLe state
  have hkeysperm : ((List.insertionSort entryLe state).map Prod.fst).Perm
      (state.map Prod.fst) := hperm.map Prod.fst
  have hkeysnodup : ((List.insertionSort entryLe state).map Prod.fst).Nodup :=
    hkeysperm.symm.nodup hnodup
  have hkeyslen : ((List.insertionSort entryLe state).map Prod.fst).length =
      state.length := by
    rw [hkeysperm.length_eq, List.length_map]
  set sortedKeys := (List.insertionSort entryLe state).map Prod.fst with hsk
  set evict := sortedKeys.take (state.length - 100) with hev
  have hsplit : evict ++ sortedKeys.drop (state.length - 100) = sortedKeys :=
    List.take_append_drop (state.length - 100) sortedKeys
  have hdisj : evict.Disjoint (sortedKeys.drop (state.length - 100)) := by
    have := hkeysnodup
    rw [← hsplit] at this
    exact (List.nodup_append.mp this).2.2
  have hcon008 : ∀ k ∈ evict, (evict.contains k) = true := by
    intro k hk
    show List.elem k evict = true
    exact List.elem_iff.mpr hk
  have hcon2 : ∀ k ∈ sortedKeys.drop (state.length - 100),
      (evict.contains k) = false := by
    intro k hk
    cases hx : evict.contains k with
    | false => rfl
    | true =>
      have hmem : k ∈ evict :=
        List.elem_iff.mp (show List.elem k evict = true from hx)
      exact absurd hk (hdisj hmem)
  rw [← List.countP_eq_length_filter]
  have hcntmap : List.countP (fun p => !(evict.contains p.1)) state =
      List.countP (fun k => !(evict.contains k)) (state.map Prod.fst) := by
    rw [List.countP_map]
    rfl
  rw [hcntmap]
  rw [← (hkeysperm.countP_eq (fun k => !(evict.contains k)))]
  conv_lhs => rw [← hsplit]
  rw [List.countP_append]
  have hc1 : List.countP (fun k => !(evict.contains k)) evict = 0 := by
    rw [List.countP_eq_zero]
    intro k hk
    show ¬((!(evict.contains k)) = true)
    rw [hcon008 k hk]
    simp
  have hc2 : List.countP (fun k => !(evict.contains k))
      (sortedKeys.drop (state.length - 100)) =
      (sortedKeys.drop (state.length - 100)).length := by
    rw [List.countP_eq_length]
    intro k hk
    show (!(evict.contains k)) = true
    rw [hcon2 k hk]
    rfl
  rw [hc1, hc2, List.length_drop, hkeyslen]
  omega

/-- Every link surviving an eviction pass has a thread identifier at or
above that of every evicted link: the oldest links are the ones
removed. -/
theorem save_state_oldest_evicted (state : List (String × ThreadEntry))
    (hnodup : (state.map Prod.fst).Nodup) (hlen : state.length > 100)
    (p q : String × ThreadEntry) (hp : p ∈ save_state state) (hq : q ∈ state)
    (hqgone : q.1 ∉ (save_state state).map Prod.fst) :
    tsLe (entryKey q.2) (entryKey p.2) = true := by
  have hres : save_state state =
      state.filter (fun r =>
        !((((List.insertionSort entryLe state).map Prod.fst).take
          (state.length - 100)).contains r.1)) := by
    unfold save_state
    rw [if_pos hlen]
  set sorted := List.insertionSort entryLe state with hsorteddef
  set evict := (sorted.map Prod.fst).take (state.length - 100) with hevict
  have hperm : sorted.Perm state := List.perm_insertionSort entryLe state
  have hkeysnodup : (sorted.map Prod.fst).Nodup :=
    (hperm.map Prod.fst).symm.nodup hnodup
  have hsorted : List.Pairwise entryLe sorted := by
    haveI : IsTotal (String × ThreadEntry) entryLe :=
      ⟨fun p q => tsLe_total (entryKey p.2) (entryKey q.2)⟩
    haveI : IsTrans (String × ThreadEntry) entryLe :=
      ⟨fun _ _ _ h1 h2 => tsLe_trans h1 h2⟩
    exact List.sorted_insertionSort entryLe state
  have hsplitP : sorted.take (state.length - 100) ++
      sorted.drop (state.length - 100) = sorted :=
    List.take_append_drop (state.length - 100) sorted
  have hevictmap : evict = (sorted.take (state.length - 100)).map Prod.fst := by
    rw [hevict, List.map_take]
  have hcross : ∀ a ∈ sorted.take (state.length - 100),
      ∀ b ∈ sorted.drop (state.length - 100), entryLe a b := by
    have := hsorted
    rw [← hsplitP] at this
    exact (List.pairwise_append.mp this).2.2
  -- the surviving link p lies in the kept suffix of the sort
  have hpfilter : p ∈ state ∧ (!(evict.contains p.1)) = true := by
    have hx := hp
    rw [hres] at hx
    exact List.mem_filter.mp hx
  have hpsorted : p ∈ sorted := hperm.mem_iff.mpr hpfilter.1
  have hpkeep : p ∈ sorted.drop (state.length - 100) := by
    have hx : p ∈ sorted.take (state.length - 100) ++
        sorted.drop (state.length - 100) := by
      rw [hsplitP]; exact hpsorted
    rcases List.mem_append.mp hx with htake | hdrop
    · exfalso
      have : p.1 ∈ evict := by
        rw [hevictmap]
        exact List.mem_map_of_mem Prod.fst htake
      have hc : evict.contains p.1 = true := by
        show List.elem p.1 evict = true
        exact List.elem_iff.mpr this
      rw [hc] at hpfilter
      exact absurd hpfilter.2 (by simp)
    · exact hdrop
  -- the evicted link q lies in the evicted prefix of the sort
  have hqsorted : q ∈ sorted := hperm.mem_iff.mpr hq
  have hqevict : q ∈ sorted.take (state.length - 100) := by
    have hx : q ∈ sorted.take (state.length - 100) ++
        sorted.drop (state.length - 100) := by
      rw [hsplitP]; exact hqsorted
    rcases List.mem_append.mp hx with htake | hdrop
    · exact htake
    · exfalso
      have hkin : q.1 ∉ evict := by
        intro hkmem
        -- the key of q would appear in both halves of the nodup key list
        have hq1 : q.1 ∈ (sorted.drop (state.length - 100)).map Prod.fst :=
          List.mem_map_of_mem Prod.fst hdrop
        have hnod := hkeysnodup
        have hsplitK : evict ++ (sorted.drop (state.length - 100)).map Prod.fst =
            sorted.map Prod.fst := by
          rw [hevictmap, ← List.map_append, hsplitP]
        rw [← hsplitK] at hnod
        exact (List.nodup_append.mp hnod).2.2 hkmem hq1
      have hqstays : q ∈ save_state state := by
        rw [hres]
        refine List.mem_filter.mpr ⟨hq, ?_⟩
        cases hx2 : evict.contains q.1 with
        | false => rfl
        | true =>
          exact absurd
            (List.elem_iff.mp (show List.elem q.1 evict = true from hx2)) hkin
      exact hqgone (List.mem_map_of_mem Prod.fst hqstays)
  exact hcross q hqevict p hpkeep

/-- Complete characterization of the scan in `get_most_recent_thread`:
either no entry strictly improves on the accumulator (and the fold
returns the accumulator), or the fold returns the first entry whose
identifier equals the running maximum, every earlier entry being
strictly below it and every later entry at or below it. -/
theorem mostRecent_fold_spec :
    ∀ (l : List (String × ThreadEntry)) (acc : Option String × String),
      (l.foldl mostRecentStep acc = acc ∧
        ∀ q ∈ l, tsLe (q.2.thread_ts.getD "0") acc.2 = true) ∨
      (∃ pre q suf, l = pre ++ q :: suf ∧
        l.foldl mostRecentStep acc = (some q.1, q.2.thread_ts.getD "0") ∧
        tsLt acc.2 (q.2.thread_ts.getD "0") = true ∧
        (∀ x ∈ pre,
          tsLt (x.2.thread_ts.getD "0") (q.2.thread_ts.getD "0") = true) ∧
        (∀ x ∈ suf,
          tsLe (x.2.thread_ts.getD "0") (q.2.thread_ts.getD "0") = true)) := by
  intro l
  induction l with
  | nil => intro acc; left; exact ⟨rfl, by simp⟩
  | cons p tl ih =>
    intro acc
    rw [List.foldl_cons]
    by_cases himp : tsLt acc.2 (p.2.thread_ts.getD "0") = true
    · have hstep : mostRecentStep acc p = (some p.1, p.2.thread_ts.getD "0") := by
        unfold mostRecentStep
        rw [if_pos himp]
      rw [hstep]
      rcases ih (some p.1, p.2.thread_ts.getD "0") with ⟨heq, hall⟩ |
        ⟨pre, q, suf, hdec, hfold, hlt, hpre, hsuf⟩
      · right
        exact ⟨[], p, tl, by simp, by rw [heq], himp, by simp, hall⟩
      · right
        refine ⟨p :: pre, q, suf, by rw [hdec]; simp, hfold,
          tsLt_trans himp hlt, ?_, hsuf⟩
        intro x hx
        rcases List.mem_cons.mp hx with hxp | hxpre
        · subst hxp; exact hlt
        · exact hpre x hxpre
    · have hstep : mostRecentStep acc p = acc := by
        unfold mostRecentStep
        rw [if_neg himp]
      rw [hstep]
      have hple : tsLe (p.2.thread_ts.getD "0") acc.2 = true := by
        rw [tsLe_def_not_tsLt]
        cases hx : tsLt acc.2 (p.2.thread_ts.getD "0") with
        | false => rfl
        | true => exact absurd hx himp
      rcases ih acc with ⟨heq, hall⟩ |
        ⟨pre, q, suf, hdec, hfold, hlt, hpre, hsuf⟩
      · left
        refine ⟨heq, ?_⟩
        intro x hx
        rcases List.mem_cons.mp hx with hxp | hxtl
        · subst hxp; exact hple
        · exact hall x hxtl
      · right
        refine ⟨p :: pre, q, suf, by rw [hdec]; simp, hfold, hlt, ?_, hsuf⟩
        intro x hx
        rcases List.mem_cons.mp hx with hxp | hxpre
        · subst hxp
          exact tsLt_of_tsLe_of_tsLt hple hlt
        · exact hpre x hxpre

theorem root_never_injected_helper (thread_ts : String)
    (bot_user_id : Option String) (state : List (String × String))
    (replies : List SlackMessage) (msg : SlackMessage)
    (hroot : msg.ts = thread_ts) :
    msg ∉ (run_tick thread_ts bot_user_id state replies).injected := by
  rw [run_tick_injected]
  intro hmemf
  have hpred := (List.mem_filter.mp hmemf).2
  unfold shouldInject at hpred
  have heq : (msg.ts == thread_ts) = true := by simp [hroot]
  simp [heq] at hpred

theorem shouldInject_updates {thread_ts : String} {bot_user_id : Option String}
    {last_seen : String} {msg : SlackMessage}
    (h : shouldInject thread_ts bot_user_id last_seen msg = true) :
    updatesCursor thread_ts last_seen msg = true := by
  unfold shouldInject at h
  unfold updatesCursor
  simp only [Bool.and_eq_true] at h ⊢
  exact ⟨h.1.1.1.1, h.1.1.1.2⟩

/-- C1 counterexample: on the first poll of a thread no cursor entry is
stored yet, so the fetch (whose inclusive oldest bound is the thread
root) returns the bot-authored root message.  The injector is not
invoked for it, but the stored cursor is not advanced to its identifier
either: the message is dropped by the at-or-below-cursor guard before
the bot branch that writes the cursor is reached, and the state keeps
no entry for the thread.  The claim, which promises cursor advancement
for every fetched bot-marked message, fails here. -/
theorem c1_counterexample :
    strTruthy (SlackMessage.mk "100.5" (some "B7") none "hello").bot_id = true ∧
    (run_tick "100.5" (some "U1") []
      [SlackMessage.mk "100.5" (some "B7") none "hello"]).injected = [] ∧
    storedCursor (run_tick "100.5" (some "U1") []
      [SlackMessage.mk "100.5" (some "B7") none "hello"]).listener_state
      "100.5" ≠ some "100.5" := by
  decide

/-- C1 (amended): a fetched message carrying a bot marker (truthy
explicit bot identifier, or resolved self identity equal to the author
identifier) is never passed to the input injector, whatever its text;
and whenever such a message is newer than the last seen cursor of the
tick and distinct from the thread root, its processing step writes the
stored cursor to exactly its identifier. -/
theorem c1_bot_messages_not_injected (thread_ts : String)
    (bot_user_id : Option String) (state : List (String × String))
    (replies : List SlackMessage) (msg : SlackMessage)
    (hbot : strTruthy msg.bot_id = true ∨
      (strTruthy bot_user_id = true ∧ (msg.user == bot_user_id) = true)) :
    msg ∉ (run_tick thread_ts bot_user_id state replies).injected ∧
    (∀ st : TickState, tsLe msg.ts (lastSeen state thread_ts) = false →
      (msg.ts == thread_ts) = false →
      storedCursor (process_reply thread_ts bot_user_id
        (lastSeen state thread_ts) st msg).listener_state thread_ts =
        some msg.ts) := by
  constructor
  · rw [run_tick_injected]
    intro hmemf
    have hpred := (List.mem_filter.mp hmemf).2
    unfold shouldInject at hpred
    rcases hbot with h | ⟨h1, h2⟩
    · simp [h] at hpred
    · simp [h1, h2] at hpred
  · intro st h1 h2
    rw [process_reply_state,
      if_pos (show updatesCursor thread_ts (lastSeen state thread_ts) msg = true
        by unfold updatesCursor; simp [h1, h2])]
    exact storedCursor_dset_self st.listener_state thread_ts msg.ts

/-- C1 witness: a bot reply strictly above the stored cursor of its
thread is filtered out without injection and its processing step writes
the cursor to its identifier. -/
theorem c1_witness :
    (SlackMessage.mk "101" (some "B7") none "hi")
      ∉ (run_tick "100" (some "U1") [("100", "100")]
        [SlackMessage.mk "101" (some "B7") none "hi"]).injected ∧
    (∀ st : TickState,
      tsLe (SlackMessage.mk "101" (some "B7") none "hi").ts
        (lastSeen [("100", "100")] "100") = false →
      ((SlackMessage.mk "101" (some "B7") none "hi").ts == "100") = false →
      storedCursor (process_reply "100" (some "U1")
        (lastSeen [("100", "100")] "100") st
        (SlackMessage.mk "101" (some "B7") none "hi")).listener_state "100" =
        some "101") :=
  c1_bot_messages_not_injected "100" (some "U1") [("100", "100")]
    [SlackMessage.mk "101" (some "B7") none "hi"]
    (SlackMessage.mk "101" (some "B7") none "hi") (Or.inl (by decide))

/-- C2: a fetched message whose identifier equals the thread root
identifier is never passed to the input injector, whatever its text
content; and when no cursor entry exists for the thread, the cursor of
the tick defaults to the thread root identifier itself. -/
theorem c2_root_never_injected (thread_ts : String)
    (bot_user_id : Option String) (state : List (String × String))
    (replies : List SlackMessage) (msg : SlackMessage)
    (_hmem : msg ∈ replies) (hroot : msg.ts = thread_ts) :
    msg ∉ (run_tick thread_ts bot_user_id state replies).injected ∧
    (state.lookup thread_ts = none → lastSeen state thread_ts = thread_ts) := by
  refine ⟨root_never_injected_helper thread_ts bot_user_id state replies msg
    hroot, ?_⟩
  intro hnone
  unfold lastSeen dget
  rw [hnone]

/-- C2 witness: the root message of a fresh thread, with non-empty human
text, is not injected, and the missing cursor defaults to the root. -/
theorem c2_witness :
    (SlackMessage.mk "100.5" none (some "alice") "hello")
      ∉ (run_tick "100.5" none []
        [SlackMessage.mk "100.5" none (some "alice") "hello"]).injected ∧
    (List.lookup "100.5" ([] : List (String × String)) = none →
      lastSeen [] "100.5" = "100.5") :=
  c2_root_never_injected "100.5" none []
    [SlackMessage.mk "100.5" none (some "alice") "hello"]
    (SlackMessage.mk "100.5" none (some "alice") "hello")
    (by decide) rfl

/-- C3: when the fetched messages of one tick have strictly increasing
identifiers, the subsequence passed to the input injector also has
strictly increasing identifiers: injections happen in chronological
order. -/
theorem c3_injection_order (thread_ts : String) (bot_user_id : Option String)
    (state : List (String × String)) (replies : List SlackMessage)
    (hsort : List.Pairwise (fun m1 m2 => tsLt m1.ts m2.ts = true) replies) :
    List.Pairwise (fun m1 m2 => tsLt m1.ts m2.ts = true)
      (run_tick thread_ts bot_user_id state replies).injected := by
  rw [run_tick_injected]
  exact List.Pairwise.filter _ hsort

/-- C3 witness: a concrete ascending fetch with two human replies. -/
theorem c3_witness :
    List.Pairwise (fun m1 m2 => tsLt m1.ts m2.ts = true)
      (run_tick "100" none [("100", "100")]
        [SlackMessage.mk "101" none (some "alice") "first",
          SlackMessage.mk "102" none (some "bob") "second"]).injected :=
  c3_injection_order "100" none [("100", "100")]
    [SlackMessage.mk "101" none (some "alice") "first",
      SlackMessage.mk "102" none (some "bob") "second"] (by decide)

/-- C4: under ascending fetches, the stored cursor entry of a thread
never decreases: along the message-processing steps inside one tick the
entry forms a non-decreasing chain, and across any sequence of poll
ticks the entry of every thread is at or above its initial value. -/
theorem c4_cursor_monotone (thread_ts : String) (bot_user_id : Option String)
    (state : List (String × String)) (replies : List SlackMessage)
    (ticks : List (String × List SlackMessage)) (t : String)
    (hsort : List.Pairwise (fun m1 m2 => tsLe m1.ts m2.ts = true) replies)
    (hticks : ∀ tk ∈ ticks,
      List.Pairwise (fun m1 m2 => tsLe m1.ts m2.ts = true) tk.2) :
    List.Chain' (fun c1 c2 => optTsLe c1 c2 = true)
      ((tick_states thread_ts bot_user_id state replies).map
        (fun s => storedCursor s.listener_state thread_ts)) ∧
    optTsLe (storedCursor state t)
      (storedCursor (run_ticks bot_user_id state ticks) t) = true := by
  constructor
  · exact scanl_cursor_chain thread_ts bot_user_id (lastSeen state thread_ts)
      replies ⟨state, []⟩ hsort (cursorUB_initial thread_ts state replies [])
  · exact run_ticks_cursor_mono bot_user_id t ticks state hticks

/-- C4 witness: a concrete tick over an ascending fetch followed by a
second tick on another batch. -/
theorem c4_witness :
    List.Chain' (fun c1 c2 => optTsLe c1 c2 = true)
      ((tick_states "100" none [("100", "100")]
        [SlackMessage.mk "101" none (some "alice") "first",
          SlackMessage.mk "102" (some "B7") none "bot note"]).map
        (fun s => storedCursor s.listener_state "100")) ∧
    optTsLe (storedCursor [("100", "100")] "100")
      (storedCursor (run_ticks none [("100", "100")]
        [("100", [SlackMessage.mk "101" none (some "alice") "first",
          SlackMessage.mk "102" (some "B7") none "bot note"]),
          ("100", [SlackMessage.mk "103" none (some "bob") "later"])]) "100") =
      true :=
  c4_cursor_monotone "100" none [("100", "100")]
    [SlackMessage.mk "101" none (some "alice") "first",
      SlackMessage.mk "102" (some "B7") none "bot note"]
    [("100", [SlackMessage.mk "101" none (some "alice") "first",
      SlackMessage.mk "102" (some "B7") none "bot note"]),
      ("100", [SlackMessage.mk "103" none (some "bob") "later"])] "100"
    (by decide) (by decide)

set_option maxRecDepth 10000 in
/-- C5: after 150 sequential stores with increasing thread identifiers
the store holds exactly the 100 links with the largest identifiers; in
general every save of a dict with unique keys and more than 100 links
evicts the oldest links by thread identifier until exactly 100
remain. -/
theorem c5_retention_cap (state : List (String × ThreadEntry))
    (hnodup : (state.map Prod.fst).Nodup) (hlen : state.length > 100) :
    (retention_scenario = retention_expected ∧
      retention_scenario.length = 100) ∧
    (save_state state).length = 100 ∧
    (∀ p ∈ save_state state, ∀ q ∈ state,
      q.1 ∉ (save_state state).map Prod.fst →
      tsLe (entryKey q.2) (entryKey p.2) = true) := by
  have heq : retention_scenario = retention_expected := by decide
  refine ⟨⟨heq, ?_⟩, save_state_length state hnodup hlen,
    fun p hp q hq hgone =>
      save_state_oldest_evicted state hnodup hlen p q hp hq hgone⟩
  rw [heq]
  unfold retention_expected
  simp

/-- C5 witness: a concrete over-full store of 101 links. -/
theorem c5_witness :
    (retention_scenario = retention_expected ∧
      retention_scenario.length = 100) ∧
    (save_state ((List.range 101).map (fun i =>
      ("c" ++ toString i,
        (⟨some (toString (100 + i)), none⟩ : ThreadEntry))))).length = 100 ∧
    (∀ p ∈ save_state ((List.range 101).map (fun i =>
        ("c" ++ toString i,
          (⟨some (toString (100 + i)), none⟩ : ThreadEntry)))),
      ∀ q ∈ (List.range 101).map (fun i =>
        ("c" ++ toString i,
          (⟨some (toString (100 + i)), none⟩ : ThreadEntry))),
      q.1 ∉ (save_state ((List.range 101).map (fun i =>
        ("c" ++ toString i,
          (⟨some (toString (100 + i)), none⟩ : ThreadEntry))))).map Prod.fst →
      tsLe (entryKey q.2) (entryKey p.2) = true) :=
  c5_retention_cap
    ((List.range 101).map (fun i =>
      ("c" ++ toString i, (⟨some (toString (100 + i)), none⟩ : ThreadEntry))))
    (by decide) (by decide)

/-- C6: a legacy document entry holding a bare thread identifier string
loads to exactly the same in-memory state as a current document entry
holding a record with only the thread identifier populated. -/
theorem c6_legacy_load_equivalence (pre post : List (String × RawValue))
    (k s : String) :
    load_state (pre ++ (k, RawValue.str s) :: post) =
      load_state (pre ++ (k, RawValue.obj ⟨some s, none⟩) :: post) := by
  unfold load_state
  simp [migrateValue]

/-- C7: when the injection of a qualifying human reply fails with a
timeout or an automation failure, the failure is absorbed — under every
automation outcome the tick computes the same listener state and the
same injection sequence, and the injection of the message is attempted
— and the cursor still ends the tick at or above the identifier of the
message, so the message is filtered out of every later tick and never
retried. -/
theorem c7_injection_failure_absorbed (thread_ts : String)
    (bot_user_id : Option String) (state : List (String × String))
    (replies : List SlackMessage) (msg : SlackMessage)
    (hsort : List.Pairwise (fun m1 m2 => tsLe m1.ts m2.ts = true) replies)
    (hmem : msg ∈ replies)
    (hinj : shouldInject thread_ts bot_user_id (lastSeen state thread_ts) msg =
      true) :
    (∀ outcomes : String → OsaOutcome,
      (run_tick_logged thread_ts bot_user_id outcomes state
        replies).listener_state =
        (run_tick thread_ts bot_user_id state replies).listener_state ∧
      (run_tick_logged thread_ts bot_user_id outcomes state replies).injected =
        (run_tick thread_ts bot_user_id state replies).injected) ∧
    msg ∈ (run_tick thread_ts bot_user_id state replies).injected ∧
    (∃ c, storedCursor (run_tick thread_ts bot_user_id state
        replies).listener_state thread_ts = some c ∧ tsLe msg.ts c = true) ∧
    (∀ replies2 : List SlackMessage,
      msg ∉ (run_tick thread_ts bot_user_id
        (run_tick thread_ts bot_user_id state replies).listener_state
        replies2).injected) := by
  have hreach := run_tick_cursor_reach thread_ts bot_user_id state replies msg
    hsort hmem (shouldInject_updates hinj)
  refine ⟨fun outcomes =>
    run_tick_logged_agrees thread_ts bot_user_id outcomes state replies,
    ?_, hreach, ?_⟩
  · rw [run_tick_injected]
    exact List.mem_filter.mpr ⟨hmem, hinj⟩
  · intro replies2
    rcases hreach with ⟨c, hlookup, hle⟩
    rw [run_tick_injected]
    intro hmf
    have hpred := (List.mem_filter.mp hmf).2
    unfold shouldInject at hpred
    have hls2 : lastSeen (run_tick thread_ts bot_user_id state
        replies).listener_state thread_ts = c := by
      unfold lastSeen dget
      rw [show (run_tick thread_ts bot_user_id state
        replies).listener_state.lookup thread_ts = some c from hlookup]
    rw [hls2, hle] at hpred
    simp at hpred

/-- C7 witness: a qualifying human reply whose injection times out. -/
theorem c7_witness :
    (∀ outcomes : String → OsaOutcome,
      (run_tick_logged "100" (some "U1") outcomes [("100", "100")]
        [SlackMessage.mk "101" none (some "alice") "hey"]).listener_state =
        (run_tick "100" (some "U1") [("100", "100")]
          [SlackMessage.mk "101" none (some "alice") "hey"]).listener_state ∧
      (run_tick_logged "100" (some "U1") outcomes [("100", "100")]
        [SlackMessage.mk "101" none (some "alice") "hey"]).injected =
        (run_tick "100" (some "U1") [("100", "100")]
          [SlackMessage.mk "101" none (some "alice") "hey"]).injected) ∧
    SlackMessage.mk "101" none (some "alice") "hey"
      ∈ (run_tick "100" (some "U1") [("100", "100")]
        [SlackMessage.mk "101" none (some "alice") "hey"]).injected ∧
    (∃ c, storedCursor (run_tick "100" (some "U1") [("100", "100")]
        [SlackMessage.mk "101" none (some "alice") "hey"]).listener_state
        "100" = some c ∧
      tsLe (SlackMessage.mk "101" none (some "alice") "hey").ts c = true) ∧
    (∀ replies2 : List SlackMessage,
      SlackMessage.mk "101" none (some "alice") "hey"
        ∉ (run_tick "100" (some "U1")
          (run_tick "100" (some "U1") [("100", "100")]
            [SlackMessage.mk "101" none (some "alice") "hey"]).listener_state
          replies2).injected) :=
  c7_injection_failure_absorbed "100" (some "U1") [("100", "100")]
    [SlackMessage.mk "101" none (some "alice") "hey"]
    (SlackMessage.mk "101" none (some "alice") "hey")
    (by decide) (by decide) (by decide)

/-- C8 counterexample: the root message on the first poll of a thread
(no cursor stored yet) is skipped without injection, but the stored
cursor is not advanced to its identifier: the listener state still has
no entry for the thread after the tick. -/
theorem c8_counterexample :
    (run_tick "100.5" none []
      [SlackMessage.mk "100.5" none (some "alice") "hello"]).injected = [] ∧
    storedCursor (run_tick "100.5" none []
      [SlackMessage.mk "100.5" none (some "alice") "hello"]).listener_state
      "100.5" = none := by
  decide

/-- C8 (amended): when a fetched message carries the thread root
identifier and no cursor entry is stored yet, the message is skipped
without injection and without any state change: its processing step is
the identity, and the effective cursor — which defaults to the root
identifier — stays the root identifier. -/
theorem c8_root_first_poll (thread_ts : String) (bot_user_id : Option String)
    (state : List (String × String)) (replies : List SlackMessage)
    (msg : SlackMessage)
    (hnone : state.lookup thread_ts = none) (hroot : msg.ts = thread_ts) :
    msg ∉ (run_tick thread_ts bot_user_id state replies).injected ∧
    (∀ st : TickState,
      process_reply thread_ts bot_user_id (lastSeen state thread_ts) st msg =
        st) ∧
    lastSeen state thread_ts = thread_ts := by
  have hls : lastSeen state thread_ts = thread_ts := by
    unfold lastSeen dget
    rw [hnone]
  refine ⟨root_never_injected_helper thread_ts bot_user_id state replies msg
    hroot, ?_, hls⟩
  intro st
  unfold process_reply
  rw [hls, hroot]
  rw [if_pos (show tsLe thread_ts thread_ts = true from tsLe_refl thread_ts)]

/-- C8 witness: the concrete first poll returning only the root. -/
theorem c8_witness :
    (SlackMessage.mk "100.5" none (some "alice") "hi")
      ∉ (run_tick "100.5" (some "U1") []
        [SlackMessage.mk "100.5" none (some "alice") "hi"]).injected ∧
    (∀ st : TickState,
      process_reply "100.5" (some "U1") (lastSeen [] "100.5") st
        (SlackMessage.mk "100.5" none (some "alice") "hi") = st) ∧
    lastSeen [] "100.5" = "100.5" :=
  c8_root_first_poll "100.5" (some "U1") []
    [SlackMessage.mk "100.5" none (some "alice") "hi"]
    (SlackMessage.mk "100.5" none (some "alice") "hi") rfl rfl

/-- C9 counterexample: two links carry the same maximal thread
identifier; the scan keeps the earlier one, because only a strictly
greater identifier replaces the candidate, so last-write-wins is
false. -/
theorem c9_counterexample :
    get_most_recent_thread
      [("conv1", ⟨some "500", none⟩), ("conv2", ⟨some "500", none⟩)] =
      (some "conv1", some "500") ∧
    ("conv1" : String) ≠ "conv2" := by
  decide

/-- C9 (amended): whenever `get_most_recent_thread` returns a
conversation and a thread identifier, that identifier is strictly above
the sentinel `"0"`, is maximal among all stored links, and belongs to
the first link of the scan attaining it: every earlier link is strictly
below it, so ties are resolved in favor of the earliest entry, not the
latest. -/
theorem c9_most_recent_first_max (state : List (String × ThreadEntry))
    (c t : String)
    (h : get_most_recent_thread state = (some c, some t)) :
    tsLt "0" t = true ∧
    (∀ q ∈ state, tsLe (q.2.thread_ts.getD "0") t = true) ∧
    ∃ pre e suf, state = pre ++ (c, e) :: suf ∧ e.thread_ts.getD "0" = t ∧
      ∀ x ∈ pre, tsLt (x.2.thread_ts.getD "0") t = true := by
  unfold get_most_recent_thread at h
  by_cases hemp : state.isEmpty
  · rw [if_pos hemp] at h
    simp at h
  · rw [if_neg hemp] at h
    rcases mostRecent_fold_spec state (none, "0") with ⟨heq, _⟩ |
      ⟨pre, q, suf, hdec, hfold, hlt, hpre, hsuf⟩
    · rw [heq] at h
      simp at h
    · rw [hfold] at h
      simp only [Prod.mk.injEq, Option.some.injEq] at h
      rcases h with ⟨hc, ht⟩
      refine ⟨ht ▸ hlt, ?_, pre, q.2, suf, ?_, ht, ?_⟩
      · intro x hx
        rw [hdec] at hx
        rcases List.mem_append.mp hx with hxpre | hxrest
        · exact tsLe_of_tsLt (ht ▸ hpre x hxpre)
        · rcases List.mem_cons.mp hxrest with hxq | hxsuf
          · subst hxq
            rw [ht]
            exact tsLe_refl t
          · exact ht ▸ hsuf x hxsuf
      · rw [hdec, ← hc]
      · intro x hx
        exact ht ▸ hpre x hx

/-- C9 witness: a scan with a tie at the maximum returns the earliest
of the tied links. -/
theorem c9_witness :
    tsLt "0" "500" = true ∧
    (∀ q ∈ [("a", (⟨some "300", none⟩ : ThreadEntry)),
        ("b", ⟨some "500", none⟩), ("d", ⟨some "500", none⟩)],
      tsLe (q.2.thread_ts.getD "0") "500" = true) ∧
    ∃ pre e suf,
      [("a", (⟨some "300", none⟩ : ThreadEntry)),
        ("b", ⟨some "500", none⟩), ("d", ⟨some "500", none⟩)] =
        pre ++ ("b", e) :: suf ∧ e.thread_ts.getD "0" = "500" ∧
      ∀ x ∈ pre, tsLt (x.2.thread_ts.getD "0") "500" = true :=
  c9_most_recent_first_max
    [("a", ⟨some "300", none⟩), ("b", ⟨some "500", none⟩),
      ("d", ⟨some "500", none⟩)] "b" "500" (by decide)

/-- C10: when self identity resolution fails (`auth.test` raises or
returns a non-ok response, so `get_bot_user_id` yields `None`), the
author-identity filter is skipped for every message: a fetched reply
with no truthy explicit bot identifier and non-empty stripped text is
injected whatever its author identifier, including the identifier of
the listener itself. -/
theorem c10_identity_filter_skipped (resp : Option AuthTestResponse)
    (thread_ts : String) (state : List (String × String))
    (replies : List SlackMessage) (msg : SlackMessage)
    (hresp : get_bot_user_id resp = none)
    (hmem : msg ∈ replies)
    (hbot : strTruthy msg.bot_id = false)
    (htext : (pyStrip msg.text == "") = false)
    (hnew : tsLe msg.ts (lastSeen state thread_ts) = false)
    (hroot : (msg.ts == thread_ts) = false) :
    msg ∈ (run_tick thread_ts (get_bot_user_id resp) state replies).injected := by
  rw [run_tick_injected]
  refine List.mem_filter.mpr ⟨hmem, ?_⟩
  unfold shouldInject
  rw [hresp]
  simp [hbot, htext, hnew, hroot, show strTruthy none = false from rfl]

/-- C10 witness: resolution fails with a non-ok response; a reply whose
author is the very identifier the bot would have resolved is injected
anyway. -/
theorem c10_witness :
    SlackMessage.mk "101" none (some "U1") "hello"
      ∈ (run_tick "100"
        (get_bot_user_id (some (AuthTestResponse.mk false (some "U1"))))
        [("100", "100")]
        [SlackMessage.mk "101" none (some "U1") "hello"]).injected :=
  c10_identity_filter_skipped (some (AuthTestResponse.mk false (some "U1")))
    "100" [("100", "100")]
    [SlackMessage.mk "101" none (some "U1") "hello"]
    (SlackMessage.mk "101" none (some "U1") "hello")
    rfl (by decide) rfl (by decide) (by decide) (by decide)

end CursorSlackHooks
